import Mathlib

/-!
Shallow embedding of the chess core in `src/chess_app/src/pieces.ts`
(the later revision, with en passant, promotion flags and castling).

Machine numbers are modelled as `Int` (TS numbers are used here only as
small integers, and out-of-bounds coordinates with negative components
are constructed transiently).  Code that throws is modelled in the
`Except ChessError` monad, with one error constructor per distinct
`throw new Error(...)` message in the source.
-/

/-- The two piece colors, `'White' | 'Black'` in the source. -/
inductive Color where
  | white
  | black
deriving DecidableEq

/-- `class Coordinate`: immutable (column, row) pair, top-left is (0,0). -/
structure Coordinate where
  column : Int
  row : Int
deriving DecidableEq

/-- `Coordinate.inBounds`: both components in [0, 8). -/
def Coordinate.inBounds (c : Coordinate) : Bool :=
  decide (0 ≤ c.column) && decide (c.column < 8) && decide (0 ≤ c.row) && decide (c.row < 8)

/-- `Coordinate.equals`: structural equality of the two components. -/
def Coordinate.equals (a b : Coordinate) : Bool :=
  decide (a.column = b.column) && decide (a.row = b.row)

/-- The six piece variants (TS classes implementing `Piece`). -/
inductive PieceKind where
  | pawn
  | bishop
  | rook
  | queen
  | king
  | knight
deriving DecidableEq

/-- A piece: variant tag plus the fields every TS piece class carries
(`position`, `color`, `firstMove`, `enPassant`; the `icon` string is
presentation-only and not modelled). -/
structure Piece where
  kind : PieceKind
  color : Color
  position : Coordinate
  firstMove : Bool
  enPassant : Bool
deriving DecidableEq

/-- `new Pawn(color, column, row, firstMove, enPassant)`
(constructor defaults: `firstMove = true`, `enPassant = false`). -/
def mkPawn (color : Color) (column row : Int) (firstMove enPassant : Bool) : Piece :=
  ⟨PieceKind.pawn, color, ⟨column, row⟩, firstMove, enPassant⟩

/-- `new Bishop(color, column, row)`: `firstMove` and `enPassant` are set false. -/
def mkBishop (color : Color) (column row : Int) : Piece :=
  ⟨PieceKind.bishop, color, ⟨column, row⟩, false, false⟩

/-- `new Rook(color, column, row, firstMove)` (default `firstMove = true`). -/
def mkRook (color : Color) (column row : Int) (firstMove : Bool) : Piece :=
  ⟨PieceKind.rook, color, ⟨column, row⟩, firstMove, false⟩

/-- `new Queen(color, column, row)`. -/
def mkQueen (color : Color) (column row : Int) : Piece :=
  ⟨PieceKind.queen, color, ⟨column, row⟩, false, false⟩

/-- `new King(color, column, row, firstMove)` (default `firstMove = true`). -/
def mkKing (color : Color) (column row : Int) (firstMove : Bool) : Piece :=
  ⟨PieceKind.king, color, ⟨column, row⟩, firstMove, false⟩

/-- `new Knight(color, column, row)`. -/
def mkKnight (color : Color) (column row : Int) : Piece :=
  ⟨PieceKind.knight, color, ⟨column, row⟩, false, false⟩

/-- One constructor per distinct `throw new Error(...)` message in the source:
`"Coordinate out of bounds"` (Board.isEmpty), `'Illegal coordinate'` and
`'No Piece In Space'` (Board.getPieceAt), `"Moving piece out of bounds"`
(every `move`), `"Must have a king"` (inCheck). -/
inductive ChessError where
  | outOfBounds
  | illegalCoordinate
  | noPieceInSpace
  | moveOutOfBounds
  | mustHaveKing
deriving DecidableEq

/-- `class Board`: an immutable array of pieces. -/
structure Board where
  pieces : List Piece
deriving DecidableEq

/-- Pure occupancy test used by the embedding wherever the source calls
`Board.isEmpty` on a coordinate already guarded by `inBounds` (the loop body
of `isEmpty` does not itself depend on bounds). -/
def Board.isEmptyP (b : Board) (c : Coordinate) : Bool :=
  !(b.pieces.any (fun p => p.position.equals c))

/-- Pure lookup: the first piece whose position equals `c`, mirroring the
scan order of `Board.getPieceAt`. -/
def Board.pieceAtP (b : Board) (c : Coordinate) : Option Piece :=
  b.pieces.find? (fun p => p.position.equals c)

/-- `Board.isEmpty(coordinate)`: true iff no piece occupies the square;
throws when the coordinate is out of bounds. -/
def Board.isEmpty (b : Board) (c : Coordinate) : Except ChessError Bool :=
  if c.inBounds then Except.ok (b.isEmptyP c) else Except.error ChessError.outOfBounds

/-- `Board.getPieceAt(coordinate)`: the first piece in the array occupying the
square; throws `'No Piece In Space'` when empty and `'Illegal coordinate'`
when out of bounds. -/
def Board.getPieceAt (b : Board) (c : Coordinate) : Except ChessError Piece :=
  if c.inBounds then
    match b.pieceAtP c with
    | some p => Except.ok p
    | none => Except.error ChessError.noPieceInSpace
  else Except.error ChessError.illegalCoordinate

/-- The board invariant from spec section 3: at most one piece occupies any
given position. -/
def Board.distinctPos (b : Board) : Prop :=
  b.pieces.Pairwise (fun p q => p.position ≠ q.position)

deriving instance DecidableEq for Except

instance (b : Board) : Decidable b.distinctPos := by
  unfold Board.distinctPos
  infer_instance

/-- Direction table shared by Queen and King `getOpenMoves`. -/
def allDirs : List (Int × Int) :=
  [(1, 1), (1, -1), (-1, 1), (-1, -1), (1, 0), (-1, 0), (0, 1), (0, -1)]

/-- Bishop direction table. -/
def diagDirs : List (Int × Int) := [(1, 1), (1, -1), (-1, 1), (-1, -1)]

/-- Rook direction table. -/
def orthoDirs : List (Int × Int) := [(1, 0), (-1, 0), (0, 1), (0, -1)]

/-- Knight offset table. -/
def knightDirs : List (Int × Int) :=
  [(2, 1), (1, 2), (-2, 1), (-1, 2), (2, -1), (1, -2), (-2, -1), (-1, -2)]

/-- One step per offset (King and Knight `getOpenMoves` bodies): in-bounds and
not occupied by an own-color piece.  Every board access in the source loop is
guarded by `inBounds`, so no error can arise. -/
def stepMoves (self : Piece) (b : Board) (dirs : List (Int × Int)) : List Coordinate :=
  dirs.filterMap (fun d =>
    let p : Coordinate := ⟨self.position.column + d.1, self.position.row + d.2⟩
    if p.inBounds then
      if !(b.isEmptyP p) && (match b.pieceAtP p with
          | some q => decide (q.color = self.color)
          | none => false) then
        none
      else some p
    else none)

/-- The while-loop of the slider `getOpenMoves` bodies: walk from the next
square in direction `d` while in bounds and empty; a blocking square is then
included exactly when it holds an opposing piece.  The fuel bounds the walk;
a straight line holds at most 8 in-bounds squares, so fuel 16 is never
exhausted and the cut-off branch returns what the source loop would. -/
def rayWalk (b : Board) (self : Piece) (d : Int × Int) : Nat → Int → Int → List Coordinate
  | 0, _, _ => []
  | fuel + 1, c, r =>
    let p : Coordinate := ⟨c, r⟩
    if p.inBounds then
      if b.isEmptyP p then
        p :: rayWalk b self d fuel (c + d.1) (r + d.2)
      else
        match b.pieceAtP p with
        | some q => if q.color = self.color then [] else [p]
        | none => []
    else []

/-- All slider moves: rays in source direction order, concatenated. -/
def sliderMoves (self : Piece) (b : Board) (dirs : List (Int × Int)) : List Coordinate :=
  (dirs.map (fun d =>
    rayWalk b self d 16 (self.position.column + d.1) (self.position.row + d.2))).flatten

/-- The pawn's diagonal capture probe: the target square is pushed when it is
in bounds and occupied by an opposing piece. -/
def diagCapture (self : Piece) (b : Board) (target : Coordinate) : List Coordinate :=
  if target.inBounds && !(b.isEmptyP target) &&
      (match b.pieceAtP target with
       | some q => decide (self.color ≠ q.color)
       | none => false) then [target] else []

/-- The pawn's en-passant probe: the DIAGONAL square is pushed when the
laterally adjacent square holds an opposing pawn whose en-passant flag is
set (the source does not check the diagonal square itself). -/
def epCapture (self : Piece) (b : Board) (sideSq diag : Coordinate) : List Coordinate :=
  if sideSq.inBounds && !(b.isEmptyP sideSq) &&
      (match b.pieceAtP sideSq with
       | some q => decide (self.color ≠ q.color) && decide (q.kind = PieceKind.pawn) && q.enPassant
       | none => false) then [diag] else []

/-- The pawn's first-move double-step probe: unlike every other probe this one
is NOT guarded by `inBounds` in the source, so `Board.isEmpty` can throw. -/
def doubleStep (self : Piece) (b : Board) (forward doubleForward : Coordinate) :
    Except ChessError (List Coordinate) :=
  if self.firstMove then
    match b.isEmpty forward with
    | Except.error e => Except.error e
    | Except.ok e1 =>
      if e1 then
        match b.isEmpty doubleForward with
        | Except.error e => Except.error e
        | Except.ok e2 => Except.ok (if e2 then [doubleForward] else [])
      else Except.ok []
  else Except.ok []

/-- `Pawn.getOpenMoves`: forward step, first-move double step, diagonal
captures and en-passant captures, in source push order. -/
def pawnOpenMoves (self : Piece) (b : Board) : Except ChessError (List Coordinate) :=
  let pos := self.position
  let forward : Coordinate :=
    if self.color = Color.black then ⟨pos.column, pos.row + 1⟩ else ⟨pos.column, pos.row - 1⟩
  let left : Coordinate :=
    if self.color = Color.black then ⟨pos.column - 1, pos.row + 1⟩ else ⟨pos.column - 1, pos.row - 1⟩
  let right : Coordinate :=
    if self.color = Color.black then ⟨pos.column + 1, pos.row + 1⟩ else ⟨pos.column + 1, pos.row - 1⟩
  let doubleForward : Coordinate :=
    if self.color = Color.black then ⟨pos.column, pos.row + 2⟩ else ⟨pos.column, pos.row - 2⟩
  let leftHorizontal : Coordinate := ⟨pos.column - 1, pos.row⟩
  let rightHorizontal : Coordinate := ⟨pos.column + 1, pos.row⟩
  let m1 : List Coordinate :=
    if forward.inBounds && b.isEmptyP forward then [forward] else []
  match doubleStep self b forward doubleForward with
  | Except.error e => Except.error e
  | Except.ok m2 =>
    Except.ok (m1 ++ m2 ++ diagCapture self b left ++ epCapture self b leftHorizontal left
      ++ diagCapture self b right ++ epCapture self b rightHorizontal right)

/-- `getOpenMoves` for every variant with the castling branch disabled: this
is exactly the `castle = false` behaviour of each class (`castle` is ignored
by every class except `King`). -/
def getOpenMovesNC (self : Piece) (b : Board) : Except ChessError (List Coordinate) :=
  match self.kind with
  | PieceKind.pawn => pawnOpenMoves self b
  | PieceKind.bishop => Except.ok (sliderMoves self b diagDirs)
  | PieceKind.rook => Except.ok (sliderMoves self b orthoDirs)
  | PieceKind.queen => Except.ok (sliderMoves self b allDirs)
  | PieceKind.king => Except.ok (stepMoves self b allDirs)
  | PieceKind.knight => Except.ok (stepMoves self b knightDirs)




/-- The en-passant clearing applied to every retained piece by every `move`
body: pawns are rebuilt with the same color, position and `firstMove` but
`enPassant = false`; other pieces are kept as they are. -/
def clearEP (p : Piece) : Piece :=
  if p.kind = PieceKind.pawn then
    { p with enPassant := false }
  else p

/-- `Pawn.move`: whether the retained-pieces loop removes `old` as a pawn
captured en passant.  The source condition: the destination square is empty,
`old` is a pawn with its en-passant flag set, in the destination column, and
one row behind the destination from the mover's point of view. -/
def takesEnPassant (self : Piece) (newPosition : Coordinate) (b : Board) (old : Piece) : Bool :=
  b.isEmptyP newPosition && decide (old.kind = PieceKind.pawn) && old.enPassant &&
    decide (old.position.column = newPosition.column) &&
    (if self.color = Color.white then decide (old.position.row = newPosition.row + 1)
     else decide (old.position.row = newPosition.row - 1))

/-- `Pawn.move`: the piece placed at the destination — a Queen on the far
rank (promotion), otherwise a pawn with `firstMove = false` and the
en-passant flag set exactly on a two-square advance from the home row. -/
def pawnMovedPiece (self : Piece) (newPosition : Coordinate) : Piece :=
  let ep : Bool :=
    (decide (self.color = Color.white) && decide (self.position.row = 6) && decide (newPosition.row = 4)) ||
    (decide (self.color = Color.black) && decide (self.position.row = 1) && decide (newPosition.row = 3))
  if self.color = Color.white && decide (newPosition.row = 0) then
    mkQueen self.color newPosition.column newPosition.row
  else if self.color = Color.black && decide (newPosition.row = 7) then
    mkQueen self.color newPosition.column newPosition.row
  else
    mkPawn self.color newPosition.column newPosition.row false ep

/-- `Pawn.move`: remove the pieces at the destination and at the mover's own
square, remove a pawn taken en passant, clear every other pawn's en-passant
flag, and append the moved (possibly promoted) piece. -/
def pawnKeep (self : Piece) (newPosition : Coordinate) (b : Board) (old : Piece) :
    Option Piece :=
  if !(old.position.equals newPosition) && !(old.position.equals self.position) then
    if takesEnPassant self newPosition b old then none else some (clearEP old)
  else none

def pawnMove (self : Piece) (newPosition : Coordinate) (b : Board) : Except ChessError Board :=
  if newPosition.inBounds then
    Except.ok (Board.mk
      (b.pieces.filterMap (pawnKeep self newPosition b) ++ [pawnMovedPiece self newPosition]))
  else Except.error ChessError.moveOutOfBounds

/-- `Bishop.move`, `Rook.move`, `Queen.move`, `Knight.move`: remove the
pieces at the destination and the mover's own square, clear every retained
pawn's en-passant flag, and append a fresh piece of the mover's class at the
destination (its `firstMove` is false — the Rook constructor is called with
an explicit `false`, the other constructors set it to false themselves). -/
def simpleKeep (self : Piece) (newPosition : Coordinate) (old : Piece) : Option Piece :=
  if !(old.position.equals newPosition) && !(old.position.equals self.position) then
    some (clearEP old)
  else none

def simpleMove (self : Piece) (newPosition : Coordinate) (b : Board) : Except ChessError Board :=
  if newPosition.inBounds then
    Except.ok (Board.mk
      (b.pieces.filterMap (simpleKeep self newPosition)
        ++ [⟨self.kind, self.color, newPosition, false, false⟩]))
  else Except.error ChessError.moveOutOfBounds

/-- `King.move`: how one retained piece is transformed.  During a castling
move (unmoved king moving to column 2 or 6 of its own row) the rook on the
corner of the king's row is relocated next to the king — rebuilt by
`new Rook(color, column, row)` whose `firstMove` defaults to TRUE — and every
OTHER rook on the board is silently dropped by the source's rook branch. -/
def kingMoveKeep (self : Piece) (qs ks : Bool) (old : Piece) : Option Piece :=
  if old.kind = PieceKind.pawn then
    some { old with enPassant := false }
  else if old.kind = PieceKind.rook then
    if qs then
      if old.position.equals ⟨0, self.position.row⟩ then
        some (mkRook old.color 3 self.position.row true)
      else none
    else if ks then
      if old.position.equals ⟨7, self.position.row⟩ then
        some (mkRook old.color 5 self.position.row true)
      else none
    else some old
  else some old

/-- `King.move`: castling is recognised purely from `firstMove` and the
destination (column 2 or 6 of the king's own row); retained pieces go through
`kingMoveKeep`; the king is re-created at the destination with
`firstMove = false`. -/
def kingKeepAll (self : Piece) (qs ks : Bool) (newPosition : Coordinate) (old : Piece) :
    Option Piece :=
  if !(old.position.equals newPosition) && !(old.position.equals self.position) then
    kingMoveKeep self qs ks old
  else none

def kingMove (self : Piece) (newPosition : Coordinate) (b : Board) : Except ChessError Board :=
  if newPosition.inBounds then
    Except.ok (Board.mk
      (b.pieces.filterMap (kingKeepAll self
          (self.firstMove && newPosition.equals ⟨2, self.position.row⟩)
          (self.firstMove && newPosition.equals ⟨6, self.position.row⟩) newPosition)
        ++ [mkKing self.color newPosition.column newPosition.row false]))
  else Except.error ChessError.moveOutOfBounds

/-- `Piece.move` dispatch over the six classes (Bishop, Rook, Queen and
Knight share one body up to the class of the appended piece). -/
def Piece.move (self : Piece) (newPosition : Coordinate) (b : Board) : Except ChessError Board :=
  match self.kind with
  | PieceKind.pawn => pawnMove self newPosition b
  | PieceKind.king => kingMove self newPosition b
  | _ => simpleMove self newPosition b


/-- `inCheck`'s first loop: the position of the LAST King of the given color
in the piece array (the source keeps overwriting `kingPosition`). -/
def findKingPos (color : Color) (pieces : List Piece) : Option Coordinate :=
  pieces.foldl (fun acc p =>
    if p.kind = PieceKind.king ∧ p.color = color then some p.position else acc) none

/-- `inCheck`'s second loop: scan the pieces in order; for each opposing piece
compute its open moves with the castling branch disabled and return true at
the first piece one of whose open moves equals the king's square. -/
def checkLoop (color : Color) (b : Board) (kingPos : Coordinate) :
    List Piece → Except ChessError Bool
  | [] => Except.ok false
  | p :: rest =>
    if p.color ≠ color then
      match getOpenMovesNC p b with
      | Except.error e => Except.error e
      | Except.ok ms =>
        if ms.any (fun m => m.equals kingPos) then Except.ok true
        else checkLoop color b kingPos rest
    else checkLoop color b kingPos rest

/-- `inCheck(color, board)`: locate the color's king (throwing
`"Must have a king"` when there is none), then test whether any opposing
piece attacks its square. -/
def inCheck (color : Color) (b : Board) : Except ChessError Bool :=
  match findKingPos color b.pieces with
  | none => Except.error ChessError.mustHaveKing
  | some kingPos => checkLoop color b kingPos b.pieces

/-- The per-column body of the castling scan in `King.getOpenMoves`: for each
middle column (in source order) the flag is cleared when the square is
occupied or when the king tentatively moved there is in check.  Both tests
run for every column regardless of the flag, so their exceptions propagate. -/
def castleScan (self : Piece) (b : Board) : List Int → Bool → Except ChessError Bool
  | [], can => Except.ok can
  | column :: rest, can =>
    let middlePosition : Coordinate := ⟨column, self.position.row⟩
    match b.isEmpty middlePosition with
    | Except.error e => Except.error e
    | Except.ok e1 =>
      let can1 := if !e1 then false else can
      match kingMove self middlePosition b with
      | Except.error e => Except.error e
      | Except.ok b2 =>
        match inCheck self.color b2 with
        | Except.error e => Except.error e
        | Except.ok chk =>
          castleScan self b rest (if chk then false else can1)

/-- One side of the castling branch: the corner square must hold an unmoved
Rook (its color is NOT checked by the source); then the middle columns are
scanned and on success the destination `⟨destColumn, king row⟩` is pushed. -/
def castleSide (self : Piece) (b : Board) (corner : Coordinate) (cols : List Int)
    (destColumn : Int) : Except ChessError (List Coordinate) :=
  match b.isEmpty corner with
  | Except.error e => Except.error e
  | Except.ok ce =>
    if !ce then
      match b.getPieceAt corner with
      | Except.error e => Except.error e
      | Except.ok pc =>
        if pc.kind = PieceKind.rook && pc.firstMove then
          match castleScan self b cols true with
          | Except.error e => Except.error e
          | Except.ok can =>
            Except.ok (if can then [(⟨destColumn, self.position.row⟩ : Coordinate)] else [])
        else Except.ok []
    else Except.ok []

/-- The whole castling branch of `King.getOpenMoves` (taken when `castle`
and `firstMove` hold): queenside over columns 4,3,2 toward the corner in
column 0, then kingside over columns 4,5,6 toward the corner in column 7;
the corner rows are the fixed home rows (7 for White, 0 for Black), not the
king's own row. -/
def kingCastleMoves (self : Piece) (b : Board) : Except ChessError (List Coordinate) :=
  if self.firstMove then
    let qsCorner : Coordinate := if self.color = Color.black then ⟨0, 0⟩ else ⟨0, 7⟩
    let ksCorner : Coordinate := if self.color = Color.black then ⟨7, 0⟩ else ⟨7, 7⟩
    match castleSide self b qsCorner [4, 3, 2] 2 with
    | Except.error e => Except.error e
    | Except.ok q =>
      match castleSide self b ksCorner [4, 5, 6] 6 with
      | Except.error e => Except.error e
      | Except.ok k => Except.ok (q ++ k)
  else Except.ok []

/-- `getOpenMoves(board, castle)` for every variant: only the King looks at
the `castle` flag, appending the castling destinations after its eight
step moves. -/
def Piece.getOpenMoves (self : Piece) (b : Board) (castle : Bool) :
    Except ChessError (List Coordinate) :=
  match self.kind with
  | PieceKind.king =>
    if castle then
      match kingCastleMoves self b with
      | Except.error e => Except.error e
      | Except.ok cm => Except.ok (stepMoves self b allDirs ++ cm)
    else Except.ok (stepMoves self b allDirs)
  | _ => getOpenMovesNC self b

/-- The filter loop of `getAvailableMoves`: keep each open move whose
tentative application does not leave the mover's color in check. -/
def availLoop (piece : Piece) (b : Board) : List Coordinate → Except ChessError (List Coordinate)
  | [] => Except.ok []
  | m :: rest =>
    match piece.move m b with
    | Except.error e => Except.error e
    | Except.ok b2 =>
      match inCheck piece.color b2 with
      | Except.error e => Except.error e
      | Except.ok chk =>
        match availLoop piece b rest with
        | Except.error e => Except.error e
        | Except.ok tail => Except.ok (if !chk then m :: tail else tail)

/-- `getAvailableMoves(piece, board)`: open moves with `castle = true`,
filtered by the tentative-move check test. -/
def getAvailableMoves (piece : Piece) (b : Board) : Except ChessError (List Coordinate) :=
  match piece.getOpenMoves b true with
  | Except.error e => Except.error e
  | Except.ok ms => availLoop piece b ms

/-- The shared loop of `inCheckmate` and `inStalemate`: true iff every piece
of the color has an empty `getAvailableMoves` list (returning false at the
first piece with a non-empty list, in source order). -/
def allNoMoves (color : Color) (b : Board) : List Piece → Except ChessError Bool
  | [] => Except.ok true
  | p :: rest =>
    if p.color = color then
      match getAvailableMoves p b with
      | Except.error e => Except.error e
      | Except.ok ms =>
        if ms.length ≠ 0 then Except.ok false else allNoMoves color b rest
    else allNoMoves color b rest

/-- `inCheckmate(color, board)`: in check and no piece of the color has an
available move. -/
def inCheckmate (color : Color) (b : Board) : Except ChessError Bool :=
  match inCheck color b with
  | Except.error e => Except.error e
  | Except.ok chk =>
    if chk then allNoMoves color b b.pieces else Except.ok false

/-- `inStalemate(color, board)`: not in check and no piece of the color has
an available move. -/
def inStalemate (color : Color) (b : Board) : Except ChessError Bool :=
  match inCheck color b with
  | Except.error e => Except.error e
  | Except.ok chk =>
    if !chk then allNoMoves color b b.pieces else Except.ok false


/-!
Fueled mirror of the source's mutual recursion.  In the source,
`King.getOpenMoves` (castling branch) calls `inCheck`, and `inCheck` calls
`getOpenMoves` with `castle = false`.  The functions below count that
recursion: each `openMovesF` call consumes one unit of fuel and `none`
means the fuel ran out.  Claim C8's theorem shows fuel 2 always suffices,
which is exactly the boundedness argument of the spec.
-/

/-- `checkLoop` over an arbitrary fueled open-move generator. -/
def checkLoopVia (openM : Piece → Option (Except ChessError (List Coordinate)))
    (color : Color) (kingPos : Coordinate) : List Piece → Option (Except ChessError Bool)
  | [] => some (Except.ok false)
  | p :: rest =>
    if p.color ≠ color then
      match openM p with
      | none => none
      | some (Except.error e) => some (Except.error e)
      | some (Except.ok ms) =>
        if ms.any (fun m => m.equals kingPos) then some (Except.ok true)
        else checkLoopVia openM color kingPos rest
    else checkLoopVia openM color kingPos rest

/-- `inCheck` over an arbitrary fueled open-move generator. -/
def inCheckVia (openM : Piece → Board → Option (Except ChessError (List Coordinate)))
    (color : Color) (b : Board) : Option (Except ChessError Bool) :=
  match findKingPos color b.pieces with
  | none => some (Except.error ChessError.mustHaveKing)
  | some kingPos => checkLoopVia (fun p => openM p b) color kingPos b.pieces

/-- `castleScan` over an arbitrary fueled check oracle. -/
def castleScanVia (check : Board → Option (Except ChessError Bool)) (self : Piece) (b : Board) :
    List Int → Bool → Option (Except ChessError Bool)
  | [], can => some (Except.ok can)
  | column :: rest, can =>
    let middlePosition : Coordinate := ⟨column, self.position.row⟩
    match b.isEmpty middlePosition with
    | Except.error e => some (Except.error e)
    | Except.ok e1 =>
      let can1 := if !e1 then false else can
      match kingMove self middlePosition b with
      | Except.error e => some (Except.error e)
      | Except.ok b2 =>
        match check b2 with
        | none => none
        | some (Except.error e) => some (Except.error e)
        | some (Except.ok chk) =>
          castleScanVia check self b rest (if chk then false else can1)

/-- `castleSide` over an arbitrary fueled check oracle. -/
def castleSideVia (check : Board → Option (Except ChessError Bool)) (self : Piece) (b : Board)
    (corner : Coordinate) (cols : List Int) (destColumn : Int) :
    Option (Except ChessError (List Coordinate)) :=
  match b.isEmpty corner with
  | Except.error e => some (Except.error e)
  | Except.ok ce =>
    if !ce then
      match b.getPieceAt corner with
      | Except.error e => some (Except.error e)
      | Except.ok pc =>
        if pc.kind = PieceKind.rook && pc.firstMove then
          match castleScanVia check self b cols true with
          | none => none
          | some (Except.error e) => some (Except.error e)
          | some (Except.ok can) =>
            some (Except.ok (if can then [(⟨destColumn, self.position.row⟩ : Coordinate)] else []))
        else some (Except.ok [])
    else some (Except.ok [])

/-- `kingCastleMoves` over an arbitrary fueled check oracle. -/
def kingCastleMovesVia (check : Board → Option (Except ChessError Bool)) (self : Piece)
    (b : Board) : Option (Except ChessError (List Coordinate)) :=
  if self.firstMove then
    let qsCorner : Coordinate := if self.color = Color.black then ⟨0, 0⟩ else ⟨0, 7⟩
    let ksCorner : Coordinate := if self.color = Color.black then ⟨7, 0⟩ else ⟨7, 7⟩
    match castleSideVia check self b qsCorner [4, 3, 2] 2 with
    | none => none
    | some (Except.error e) => some (Except.error e)
    | some (Except.ok q) =>
      match castleSideVia check self b ksCorner [4, 5, 6] 6 with
      | none => none
      | some (Except.error e) => some (Except.error e)
      | some (Except.ok k) => some (Except.ok (q ++ k))
  else some (Except.ok [])

/-- Fueled `getOpenMoves`: each call consumes one unit of fuel, and the
castling branch reaches `inCheck` (hence nested `getOpenMoves` calls with
`castle = false`) through the remaining fuel. -/
def openMovesF : Nat → Piece → Board → Bool → Option (Except ChessError (List Coordinate))
  | 0, _, _, _ => none
  | fuel + 1, p, b, castle =>
    match p.kind with
    | PieceKind.king =>
      if castle then
        match kingCastleMovesVia
            (fun b2 => inCheckVia (fun q bb => openMovesF fuel q bb false) p.color b2) p b with
        | none => none
        | some (Except.error e) => some (Except.error e)
        | some (Except.ok cm) => some (Except.ok (stepMoves p b allDirs ++ cm))
      else some (Except.ok (stepMoves p b allDirs))
    | _ => some (getOpenMovesNC p b)

/-- Fueled `inCheck`: its open-move calls draw on the given fuel. -/
def inCheckF (fuel : Nat) (color : Color) (b : Board) : Option (Except ChessError Bool) :=
  inCheckVia (fun q bb => openMovesF fuel q bb false) color b

/-- Fueled `move` (no recursion in the source body). -/
def moveF : Nat → Piece → Coordinate → Board → Option (Except ChessError Board)
  | 0, _, _, _ => none
  | _ + 1, p, m, b => some (p.move m b)

/-- `availLoop` over an arbitrary fueled check oracle. -/
def availLoopVia (check : Board → Option (Except ChessError Bool)) (piece : Piece) (b : Board) :
    List Coordinate → Option (Except ChessError (List Coordinate))
  | [] => some (Except.ok [])
  | m :: rest =>
    match piece.move m b with
    | Except.error e => some (Except.error e)
    | Except.ok b2 =>
      match check b2 with
      | none => none
      | some (Except.error e) => some (Except.error e)
      | some (Except.ok chk) =>
        match availLoopVia check piece b rest with
        | none => none
        | some (Except.error e) => some (Except.error e)
        | some (Except.ok tail) => some (Except.ok (if !chk then m :: tail else tail))

/-- Fueled `getAvailableMoves`. -/
def getAvailableMovesF (fuel : Nat) (piece : Piece) (b : Board) :
    Option (Except ChessError (List Coordinate)) :=
  match openMovesF fuel piece b true with
  | none => none
  | some (Except.error e) => some (Except.error e)
  | some (Except.ok ms) => availLoopVia (fun b2 => inCheckF fuel piece.color b2) piece b ms

/-- `allNoMoves` over an arbitrary fueled available-move generator. -/
def allNoMovesVia (avail : Piece → Option (Except ChessError (List Coordinate))) (color : Color) :
    List Piece → Option (Except ChessError Bool)
  | [] => some (Except.ok true)
  | p :: rest =>
    if p.color = color then
      match avail p with
      | none => none
      | some (Except.error e) => some (Except.error e)
      | some (Except.ok ms) =>
        if ms.length ≠ 0 then some (Except.ok false) else allNoMovesVia avail color rest
    else allNoMovesVia avail color rest

/-- Fueled `inCheckmate`. -/
def inCheckmateF (fuel : Nat) (color : Color) (b : Board) : Option (Except ChessError Bool) :=
  match inCheckF fuel color b with
  | none => none
  | some (Except.error e) => some (Except.error e)
  | some (Except.ok chk) =>
    if chk then allNoMovesVia (fun p => getAvailableMovesF fuel p b) color b.pieces
    else some (Except.ok false)

/-- Fueled `inStalemate`. -/
def inStalemateF (fuel : Nat) (color : Color) (b : Board) : Option (Except ChessError Bool) :=
  match inCheckF fuel color b with
  | none => none
  | some (Except.error e) => some (Except.error e)
  | some (Except.ok chk) =>
    if !chk then allNoMovesVia (fun p => getAvailableMovesF fuel p b) color b.pieces
    else some (Except.ok false)

/-!  Named concrete boards used by the claim theorems below.  Pieces are
built exactly as the TS constructors would build them (`firstMove` defaults
to true for Pawn, Rook and King unless stated otherwise). -/

/-- A white king on its standard home square, unmoved. -/
def kingE1 : Piece := mkKing Color.white 4 7 true

/-- The standard queenside-castling position: unmoved white king at (4,7),
unmoved white rook at (0,7), all squares between them empty, no enemies. -/
def castleBoard : Board := Board.mk [kingE1, mkRook Color.white 0 7 true]

/-- Both white rooks unmoved on their corners, white king unmoved. -/
def twoRookBoard : Board :=
  Board.mk [kingE1, mkRook Color.white 0 7 true, mkRook Color.white 7 7 true]

/-- An unmoved white king and rook with a white bishop on (3,7), the square
the rook lands on when castling queenside. -/
def bishopCastleBoard : Board :=
  Board.mk [kingE1, mkRook Color.white 0 7 true, mkBishop Color.white 3 7]

/-- The spec's stalemate scenario with every piece built by its constructor's
defaults (so the black king's `firstMove` is true). -/
def staleBoard : Board :=
  Board.mk [mkKing Color.black 5 0 true, mkKing Color.white 5 7 true,
    mkRook Color.white 7 1 true, mkQueen Color.white 4 5, mkRook Color.white 6 3 true]

/-- The spec's stalemate scenario with the black king's `firstMove` flag
false, as it would be for any king that reached (5,0) by playing. -/
def staleBoardMoved : Board :=
  Board.mk [mkKing Color.black 5 0 false, mkKing Color.white 5 7 true,
    mkRook Color.white 7 1 true, mkQueen Color.white 4 5, mkRook Color.white 6 3 true]

/-- A lone white pawn constructed at row 1 (fresh constructor, so
`firstMove = true`) with the square ahead of it empty. -/
def pawnEdgeBoard : Board := Board.mk [mkPawn Color.white 3 1 true false]

/-- Both kings plus a black first-move pawn at (3,6), whose double-step probe
square (3,8) lies off the board. -/
def pawnProbeBoard : Board :=
  Board.mk [mkKing Color.white 4 7 true, mkKing Color.black 4 0 true,
    mkPawn Color.black 3 6 true false]

/-- Both kings plus a black rook attacking the white king down the file. -/
def rookCheckBoard : Board :=
  Board.mk [mkKing Color.white 4 7 true, mkKing Color.black 4 0 true,
    mkRook Color.black 4 4 true]

/-- Just the two kings, in opposite corners. -/
def twoKingsBoard : Board :=
  Board.mk [mkKing Color.white 0 0 true, mkKing Color.black 7 7 true]

/-- The white king at (0,0) of `twoKingsBoard`. -/
def kingA1 : Piece := mkKing Color.white 0 0 true

/-- A white first-move pawn on its home square plus the white king. -/
def pawnHomeBoard : Board :=
  Board.mk [mkPawn Color.white 3 6 true false, mkKing Color.white 4 7 true]

/-- A single white rook, for the lookup claims. -/
def rookOnlyBoard : Board := Board.mk [mkRook Color.white 2 2 true]

/-!  ## Lemmas and theorems  -/

theorem Coordinate.equals_iff (a b : Coordinate) : a.equals b = true ↔ a = b := by
  cases a with
  | mk ac ar =>
    cases b with
    | mk bc br =>
      simp [Coordinate.equals, Coordinate.mk.injEq]

theorem Board.isEmpty_error {b : Board} {c : Coordinate} {e : ChessError}
    (h : b.isEmpty c = Except.error e) : e = ChessError.outOfBounds := by
  unfold Board.isEmpty at h
  split at h
  · exact absurd h (by simp)
  · injection h with h
    exact h.symm

theorem doubleStep_error {self : Piece} {b : Board} {f df : Coordinate} {e : ChessError}
    (h : doubleStep self b f df = Except.error e) : e = ChessError.outOfBounds := by
  unfold doubleStep at h
  split at h
  · split at h
    case _ e1 heq =>
      injection h with h
      subst h
      exact Board.isEmpty_error heq
    case _ e1 heq =>
      split at h
      · split at h
        case _ e2 heq2 =>
          injection h with h
          subst h
          exact Board.isEmpty_error heq2
        case _ e2 heq2 =>
          exact absurd h (by simp)
      · exact absurd h (by simp)
  · exact absurd h (by simp)

theorem pawnOpenMoves_error {self : Piece} {b : Board} {e : ChessError}
    (h : pawnOpenMoves self b = Except.error e) : e = ChessError.outOfBounds := by
  unfold pawnOpenMoves at h
  split at h <;> dsimp only at h <;> split at h <;>
    first
      | (injection h with h; subst h; exact doubleStep_error (by assumption))
      | exact absurd h (by simp)

theorem getOpenMovesNC_error {p : Piece} {b : Board} {e : ChessError}
    (h : getOpenMovesNC p b = Except.error e) : e = ChessError.outOfBounds := by
  unfold getOpenMovesNC at h
  cases hk : p.kind <;> rw [hk] at h
  case pawn => exact pawnOpenMoves_error h
  all_goals exact absurd h (by simp)

theorem getOpenMoves_false (p : Piece) (b : Board) :
    p.getOpenMoves b false = getOpenMovesNC p b := by
  unfold Piece.getOpenMoves getOpenMovesNC
  cases p.kind <;> simp

theorem findKingAux_none (color : Color) :
    ∀ (l : List Piece) (acc : Option Coordinate),
      (l.foldl (fun acc p =>
        if p.kind = PieceKind.king ∧ p.color = color then some p.position else acc) acc = none ↔
      acc = none ∧ ∀ q ∈ l, ¬(q.kind = PieceKind.king ∧ q.color = color)) := by
  intro l
  induction l with
  | nil => simp
  | cons p rest ih =>
    intro acc
    simp only [List.foldl_cons]
    rw [ih]
    by_cases hp : p.kind = PieceKind.king ∧ p.color = color
    · simp only [if_pos hp]
      constructor
      · rintro ⟨hnone, _⟩
        exact absurd hnone (by simp)
      · rintro ⟨_, hall⟩
        exact absurd hp (hall p (by simp))
    · simp only [if_neg hp]
      constructor
      · rintro ⟨hacc, hall⟩
        refine ⟨hacc, ?_⟩
        intro q hq
        rcases List.mem_cons.mp hq with hq | hq
        · subst hq; exact hp
        · exact hall q hq
      · rintro ⟨hacc, hall⟩
        exact ⟨hacc, fun q hq => hall q (List.mem_cons_of_mem p hq)⟩

theorem findKingPos_none_iff (color : Color) (l : List Piece) :
    findKingPos color l = none ↔ ∀ q ∈ l, ¬(q.kind = PieceKind.king ∧ q.color = color) := by
  unfold findKingPos
  rw [findKingAux_none]
  simp

theorem checkLoop_ne_mustHaveKing (color : Color) (b : Board) (kp : Coordinate) :
    ∀ l : List Piece, checkLoop color b kp l ≠ Except.error ChessError.mustHaveKing := by
  intro l
  induction l with
  | nil => simp [checkLoop]
  | cons p rest ih =>
    intro h
    unfold checkLoop at h
    split at h
    · split at h
      · injection h with h
        exact absurd ((getOpenMovesNC_error (by assumption)).symm.trans h) (by simp)
      · split at h
        · exact absurd h (by simp)
        · exact ih h
    · exact ih h

theorem checkLoop_ok_true_iff (color : Color) (b : Board) (kp : Coordinate) :
    ∀ l : List Piece,
      (∀ q ∈ l, q.color ≠ color → ∃ ms, getOpenMovesNC q b = Except.ok ms) →
      (checkLoop color b kp l = Except.ok true ↔
        ∃ q ∈ l, q.color ≠ color ∧ ∃ ms, getOpenMovesNC q b = Except.ok ms ∧ kp ∈ ms) := by
  intro l
  induction l with
  | nil =>
    intro _
    simp [checkLoop]
  | cons p rest ih =>
    intro hok
    have hokRest : ∀ q ∈ rest, q.color ≠ color → ∃ ms, getOpenMovesNC q b = Except.ok ms :=
      fun q hq => hok q (List.mem_cons_of_mem p hq)
    unfold checkLoop
    by_cases hc : p.color ≠ color
    · rcases hok p (by simp) hc with ⟨ms, hms⟩
      rw [if_pos hc, hms]
      dsimp only
      by_cases hany : ms.any (fun m => m.equals kp) = true
      · rw [if_pos hany]
        have hkp : kp ∈ ms := by
          rcases List.any_eq_true.mp hany with ⟨x, hx, hxe⟩
          rcases (Coordinate.equals_iff x kp).mp hxe with rfl
          exact hx
        constructor
        · intro _
          exact ⟨p, by simp, hc, ms, hms, hkp⟩
        · intro _
          rfl
      · rw [if_neg hany]
        rw [ih hokRest]
        constructor
        · rintro ⟨q, hq, hqc, ms2, hms2, hmem⟩
          exact ⟨q, List.mem_cons_of_mem p hq, hqc, ms2, hms2, hmem⟩
        · rintro ⟨q, hq, hqc, ms2, hms2, hmem⟩
          rcases List.mem_cons.mp hq with rfl | hq2
          · rw [hms] at hms2
            injection hms2 with hms2
            subst hms2
            have hc2 : (ms.any fun m => m.equals kp) = true :=
              List.any_eq_true.mpr ⟨kp, hmem, (Coordinate.equals_iff kp kp).mpr rfl⟩
            exact absurd hc2 hany
          · exact ⟨q, hq2, hqc, ms2, hms2, hmem⟩
    · rw [if_neg hc]
      rw [ih hokRest]
      push_neg at hc
      constructor
      · rintro ⟨q, hq, hqc, rest2⟩
        exact ⟨q, List.mem_cons_of_mem p hq, hqc, rest2⟩
      · rintro ⟨q, hq, hqc, rest2⟩
        rcases List.mem_cons.mp hq with rfl | hq2
        · exact absurd hc hqc
        · exact ⟨q, hq2, hqc, rest2⟩

theorem inCheck_missing_iff (color : Color) (b : Board) :
    inCheck color b = Except.error ChessError.mustHaveKing ↔
      ∀ q ∈ b.pieces, ¬(q.kind = PieceKind.king ∧ q.color = color) := by
  constructor
  · intro h
    unfold inCheck at h
    cases hfk : findKingPos color b.pieces with
    | none => exact (findKingPos_none_iff color b.pieces).mp hfk
    | some kp =>
      rw [hfk] at h
      exact absurd h (checkLoop_ne_mustHaveKing color b kp b.pieces)
  · intro hall
    unfold inCheck
    rw [(findKingPos_none_iff color b.pieces).mpr hall]

theorem availLoop_mem (p : Piece) (b : Board) :
    ∀ (l ms : List Coordinate), availLoop p b l = Except.ok ms → ∀ m ∈ ms,
      ∃ b2, p.move m b = Except.ok b2 ∧ inCheck p.color b2 = Except.ok false := by
  intro l
  induction l with
  | nil =>
    intro ms h m hm
    unfold availLoop at h
    injection h with h
    subst h
    simp at hm
  | cons x rest ih =>
    intro ms h m hm
    unfold availLoop at h
    cases hmv : p.move x b with
    | error e =>
      rw [hmv] at h
      simp at h
    | ok b2 =>
      rw [hmv] at h
      dsimp only at h
      cases hchk : inCheck p.color b2 with
      | error e =>
        rw [hchk] at h
        simp at h
      | ok chk =>
        rw [hchk] at h
        dsimp only at h
        cases htail : availLoop p b rest with
        | error e =>
          rw [htail] at h
          simp at h
        | ok tail =>
          rw [htail] at h
          dsimp only at h
          injection h with h
          subst h
          cases chk with
          | false =>
            simp only [Bool.not_false, if_true] at hm
            rcases List.mem_cons.mp hm with rfl | hm2
            · exact ⟨b2, hmv, hchk⟩
            · exact ih tail htail m hm2
          | true =>
            simp only [Bool.not_true, if_false] at hm
            exact ih tail htail m hm

theorem inCheckmate_true_inCheck {color : Color} {b : Board}
    (h : inCheckmate color b = Except.ok true) : inCheck color b = Except.ok true := by
  unfold inCheckmate at h
  cases hc : inCheck color b with
  | error e =>
    rw [hc] at h
    simp at h
  | ok chk =>
    rw [hc] at h
    dsimp only at h
    cases chk with
    | false => simp at h
    | true => rfl

theorem inStalemate_true_inCheck {color : Color} {b : Board}
    (h : inStalemate color b = Except.ok true) : inCheck color b = Except.ok false := by
  unfold inStalemate at h
  cases hc : inCheck color b with
  | error e =>
    rw [hc] at h
    simp at h
  | ok chk =>
    rw [hc] at h
    dsimp only at h
    cases chk with
    | false => rfl
    | true => simp at h

theorem clearEP_position (p : Piece) : (clearEP p).position = p.position := by
  unfold clearEP
  split <;> rfl

theorem distinct_filterMap_append (l : List Piece) (f : Piece → Option Piece) (newP : Piece)
    (hpos : ∀ a a', f a = some a' → a'.position = a.position)
    (hne : ∀ a a', f a = some a' → a.position ≠ newP.position)
    (h : l.Pairwise (fun p q => p.position ≠ q.position)) :
    (l.filterMap f ++ [newP]).Pairwise (fun p q => p.position ≠ q.position) := by
  rw [List.pairwise_append]
  refine ⟨?_, by simp, ?_⟩
  · rw [List.pairwise_filterMap]
    refine h.imp ?_
    intro a a' hne2 x hx x' hx'
    rw [hpos a x (Option.mem_def.mp hx), hpos a' x' (Option.mem_def.mp hx')]
    exact hne2
  · intro x hx y hy
    rcases List.mem_filterMap.mp hx with ⟨a, _, hfa⟩
    rcases List.mem_singleton.mp hy with rfl
    rw [hpos a x hfa]
    exact hne a x hfa

theorem pawnKeep_pos (self : Piece) (m : Coordinate) (b : Board) (old x : Piece)
    (h : pawnKeep self m b old = some x) : x.position = old.position := by
  unfold pawnKeep at h
  split at h
  · split at h
    · exact absurd h (by simp)
    · injection h with h
      subst h
      exact clearEP_position old
  · exact absurd h (by simp)

theorem pawnKeep_ne (self : Piece) (m : Coordinate) (b : Board) (old x : Piece)
    (h : pawnKeep self m b old = some x) : old.position ≠ m := by
  unfold pawnKeep at h
  split at h
  case _ hcond =>
    intro hpos
    rw [Bool.and_eq_true, Bool.not_eq_true'] at hcond
    exact absurd ((Coordinate.equals_iff old.position m).mpr hpos) (by simp [hcond.1])
  · exact absurd h (by simp)

theorem simpleKeep_pos (self : Piece) (m : Coordinate) (old x : Piece)
    (h : simpleKeep self m old = some x) : x.position = old.position := by
  unfold simpleKeep at h
  split at h
  · injection h with h
    subst h
    exact clearEP_position old
  · exact absurd h (by simp)

theorem simpleKeep_ne (self : Piece) (m : Coordinate) (old x : Piece)
    (h : simpleKeep self m old = some x) : old.position ≠ m := by
  unfold simpleKeep at h
  split at h
  case _ hcond =>
    intro hpos
    rw [Bool.and_eq_true, Bool.not_eq_true'] at hcond
    exact absurd ((Coordinate.equals_iff old.position m).mpr hpos) (by simp [hcond.1])
  · exact absurd h (by simp)

theorem kingMoveKeep_pos_noCastle (self : Piece) (old x : Piece)
    (h : kingMoveKeep self false false old = some x) : x.position = old.position := by
  unfold kingMoveKeep at h
  split at h
  · injection h with h
    subst h
    rfl
  · split at h
    · simp only [if_neg (by simp : ¬(false = true))] at h
      injection h with h
      subst h
      rfl
    · injection h with h
      subst h
      rfl

theorem kingKeepAll_pos_noCastle (self : Piece) (m : Coordinate) (old x : Piece)
    (h : kingKeepAll self false false m old = some x) : x.position = old.position := by
  unfold kingKeepAll at h
  split at h
  · exact kingMoveKeep_pos_noCastle self old x h
  · exact absurd h (by simp)

theorem kingKeepAll_ne (self : Piece) (qs ks : Bool) (m : Coordinate) (old x : Piece)
    (h : kingKeepAll self qs ks m old = some x) : old.position ≠ m := by
  unfold kingKeepAll at h
  split at h
  case _ hcond =>
    intro hpos
    rw [Bool.and_eq_true, Bool.not_eq_true'] at hcond
    exact absurd ((Coordinate.equals_iff old.position m).mpr hpos) (by simp [hcond.1])
  · exact absurd h (by simp)

theorem pawnMovedPiece_position (self : Piece) (m : Coordinate) :
    (pawnMovedPiece self m).position = m := by
  unfold pawnMovedPiece
  split
  · rfl
  · split <;> rfl

theorem move_eq_pawnMove {p : Piece} (hk : p.kind = PieceKind.pawn) (m : Coordinate) (b : Board) :
    p.move m b = pawnMove p m b := by
  unfold Piece.move
  rw [hk]

theorem move_eq_kingMove {p : Piece} (hk : p.kind = PieceKind.king) (m : Coordinate) (b : Board) :
    p.move m b = kingMove p m b := by
  unfold Piece.move
  rw [hk]

theorem move_eq_simpleMove {p : Piece}
    (hk : p.kind = PieceKind.bishop ∨ p.kind = PieceKind.rook ∨ p.kind = PieceKind.queen ∨
      p.kind = PieceKind.knight) (m : Coordinate) (b : Board) :
    p.move m b = simpleMove p m b := by
  unfold Piece.move
  rcases hk with hk | hk | hk | hk <;> rw [hk]

theorem equals_false_of_ne {a c : Coordinate} (h : a ≠ c) : a.equals c = false := by
  rw [Bool.eq_false_iff]
  intro hc
  exact h ((Coordinate.equals_iff a c).mp hc)

/-- C6 (amended): for every piece, every in-bounds destination and every board
with at most one piece per square, the move produces a board with at most
one piece per square, PROVIDED the move is not a King's castling move (an
unmoved King moving to column 2 or 6 of its own row) — a castling move can
relocate the corner rook onto an occupied square (see the counterexample). -/
theorem move_preserves_distinct (p : Piece) (m : Coordinate) (b : Board)
    (hm : m.inBounds = true) (hd : b.distinctPos)
    (hnc : ¬(p.kind = PieceKind.king ∧ p.firstMove = true ∧
      (m = ⟨2, p.position.row⟩ ∨ m = ⟨6, p.position.row⟩))) :
    ∃ b2, p.move m b = Except.ok b2 ∧ b2.distinctPos := by
  unfold Board.distinctPos at hd
  cases hk : p.kind with
  | pawn =>
    have hmv : p.move m b = Except.ok (Board.mk
        (b.pieces.filterMap (pawnKeep p m b) ++ [pawnMovedPiece p m])) := by
      rw [move_eq_pawnMove hk]
      unfold pawnMove
      rw [if_pos hm]
    refine ⟨_, hmv, ?_⟩
    unfold Board.distinctPos
    refine distinct_filterMap_append _ _ _ (pawnKeep_pos p m b) ?_ hd
    intro a a' ha
    rw [pawnMovedPiece_position]
    exact pawnKeep_ne p m b a a' ha
  | king =>
    have hfm : p.firstMove = true → m ≠ (⟨2, p.position.row⟩ : Coordinate) ∧
        m ≠ (⟨6, p.position.row⟩ : Coordinate) := by
      intro hf
      constructor <;> intro hme <;> exact hnc ⟨hk, hf, by simp [hme]⟩
    have hqs : (p.firstMove && m.equals ⟨2, p.position.row⟩) = false := by
      cases hf : p.firstMove with
      | false => rfl
      | true => simp [equals_false_of_ne (hfm hf).1]
    have hks : (p.firstMove && m.equals ⟨6, p.position.row⟩) = false := by
      cases hf : p.firstMove with
      | false => rfl
      | true => simp [equals_false_of_ne (hfm hf).2]
    have hmv : p.move m b = Except.ok (Board.mk
        (b.pieces.filterMap (kingKeepAll p false false m)
          ++ [mkKing p.color m.column m.row false])) := by
      rw [move_eq_kingMove hk]
      unfold kingMove
      rw [if_pos hm, hqs, hks]
    refine ⟨_, hmv, ?_⟩
    unfold Board.distinctPos
    refine distinct_filterMap_append _ _ _ (kingKeepAll_pos_noCastle p m) ?_ hd
    intro a a' ha
    show a.position ≠ (mkKing p.color m.column m.row false).position
    have : (mkKing p.color m.column m.row false).position = m := rfl
    rw [this]
    exact kingKeepAll_ne p false false m a a' ha
  | bishop =>
    have hmv : p.move m b = Except.ok (Board.mk
        (b.pieces.filterMap (simpleKeep p m) ++ [⟨p.kind, p.color, m, false, false⟩])) := by
      rw [move_eq_simpleMove (by simp [hk])]
      unfold simpleMove
      rw [if_pos hm]
    refine ⟨_, hmv, ?_⟩
    unfold Board.distinctPos
    refine distinct_filterMap_append _ _ _ (simpleKeep_pos p m) ?_ hd
    intro a a' ha
    exact simpleKeep_ne p m a a' ha
  | rook =>
    have hmv : p.move m b = Except.ok (Board.mk
        (b.pieces.filterMap (simpleKeep p m) ++ [⟨p.kind, p.color, m, false, false⟩])) := by
      rw [move_eq_simpleMove (by simp [hk])]
      unfold simpleMove
      rw [if_pos hm]
    refine ⟨_, hmv, ?_⟩
    unfold Board.distinctPos
    refine distinct_filterMap_append _ _ _ (simpleKeep_pos p m) ?_ hd
    intro a a' ha
    exact simpleKeep_ne p m a a' ha
  | queen =>
    have hmv : p.move m b = Except.ok (Board.mk
        (b.pieces.filterMap (simpleKeep p m) ++ [⟨p.kind, p.color, m, false, false⟩])) := by
      rw [move_eq_simpleMove (by simp [hk])]
      unfold simpleMove
      rw [if_pos hm]
    refine ⟨_, hmv, ?_⟩
    unfold Board.distinctPos
    refine distinct_filterMap_append _ _ _ (simpleKeep_pos p m) ?_ hd
    intro a a' ha
    exact simpleKeep_ne p m a a' ha
  | knight =>
    have hmv : p.move m b = Except.ok (Board.mk
        (b.pieces.filterMap (simpleKeep p m) ++ [⟨p.kind, p.color, m, false, false⟩])) := by
      rw [move_eq_simpleMove (by simp [hk])]
      unfold simpleMove
      rw [if_pos hm]
    refine ⟨_, hmv, ?_⟩
    unfold Board.distinctPos
    refine distinct_filterMap_append _ _ _ (simpleKeep_pos p m) ?_ hd
    intro a a' ha
    exact simpleKeep_ne p m a a' ha

theorem openMovesF_false (fuel : Nat) (p : Piece) (b : Board) :
    openMovesF (fuel + 1) p b false = some (p.getOpenMoves b false) := by
  unfold openMovesF Piece.getOpenMoves getOpenMovesNC
  cases p.kind <;> simp

theorem checkLoopVia_eq (openM : Piece → Option (Except ChessError (List Coordinate)))
    (b : Board) (color : Color) (kp : Coordinate)
    (hopen : ∀ q, openM q = some (getOpenMovesNC q b)) :
    ∀ l, checkLoopVia openM color kp l = some (checkLoop color b kp l) := by
  intro l
  induction l with
  | nil => rfl
  | cons p rest ih =>
    unfold checkLoopVia checkLoop
    by_cases hc : p.color ≠ color
    · rw [if_pos hc, if_pos hc, hopen p]
      cases hg : getOpenMovesNC p b with
      | error e => rfl
      | ok ms =>
        dsimp only
        by_cases hany : (ms.any fun m => m.equals kp) = true
        · simp [hany]
        · simp [hany, ih]
    · rw [if_neg hc, if_neg hc]
      exact ih

theorem inCheckF_eq (fuel : Nat) (color : Color) (b : Board) :
    inCheckF (fuel + 1) color b = some (inCheck color b) := by
  unfold inCheckF inCheckVia inCheck
  cases findKingPos color b.pieces with
  | none => rfl
  | some kp =>
    dsimp only
    exact checkLoopVia_eq _ b color kp
      (fun q => by rw [openMovesF_false fuel q b, getOpenMoves_false]) b.pieces

theorem castleScanVia_eq (check : Board → Option (Except ChessError Bool)) (self : Piece)
    (b : Board) (hcheck : ∀ b2, check b2 = some (inCheck self.color b2)) :
    ∀ (cols : List Int) (can : Bool),
      castleScanVia check self b cols can = some (castleScan self b cols can) := by
  intro cols
  induction cols with
  | nil => intro can; rfl
  | cons c rest ih =>
    intro can
    unfold castleScanVia castleScan
    dsimp only
    cases b.isEmpty ⟨c, self.position.row⟩ with
    | error e => rfl
    | ok e1 =>
      dsimp only
      cases kingMove self ⟨c, self.position.row⟩ b with
      | error e => rfl
      | ok b2 =>
        dsimp only
        rw [hcheck b2]
        cases inCheck self.color b2 with
        | error e => rfl
        | ok chk =>
          dsimp only
          exact ih _

theorem castleSideVia_eq (check : Board → Option (Except ChessError Bool)) (self : Piece)
    (b : Board) (corner : Coordinate) (cols : List Int) (destColumn : Int)
    (hcheck : ∀ b2, check b2 = some (inCheck self.color b2)) :
    castleSideVia check self b corner cols destColumn =
      some (castleSide self b corner cols destColumn) := by
  unfold castleSideVia castleSide
  cases b.isEmpty corner with
  | error e => rfl
  | ok ce =>
    dsimp only
    by_cases hce : (!ce) = true
    · rw [if_pos hce, if_pos hce]
      cases b.getPieceAt corner with
      | error e => rfl
      | ok pc =>
        dsimp only
        by_cases hpc : (decide (pc.kind = PieceKind.rook) && pc.firstMove) = true
        · rw [if_pos hpc, if_pos hpc, castleScanVia_eq check self b hcheck cols true]
          cases castleScan self b cols true with
          | error e => rfl
          | ok can => rfl
        · rw [if_neg hpc, if_neg hpc]
    · rw [if_neg hce, if_neg hce]

theorem kingCastleMovesVia_eq (check : Board → Option (Except ChessError Bool)) (self : Piece)
    (b : Board) (hcheck : ∀ b2, check b2 = some (inCheck self.color b2)) :
    kingCastleMovesVia check self b = some (kingCastleMoves self b) := by
  unfold kingCastleMovesVia kingCastleMoves
  by_cases hfm : self.firstMove = true
  · rw [if_pos hfm, if_pos hfm]
    dsimp only
    rw [castleSideVia_eq check self b _ _ _ hcheck]
    cases castleSide self b (if self.color = Color.black then ⟨0, 0⟩ else ⟨0, 7⟩) [4, 3, 2] 2 with
    | error e => rfl
    | ok q =>
      dsimp only
      rw [castleSideVia_eq check self b _ _ _ hcheck]
      cases castleSide self b (if self.color = Color.black then ⟨7, 0⟩ else ⟨7, 7⟩) [4, 5, 6] 6 with
      | error e => rfl
      | ok k => rfl
  · rw [if_neg hfm, if_neg hfm]

theorem openMovesF_eq (fuel : Nat) (p : Piece) (b : Board) (castle : Bool) :
    openMovesF (fuel + 2) p b castle = some (p.getOpenMoves b castle) := by
  cases castle with
  | false => exact openMovesF_false (fuel + 1) p b
  | true =>
    unfold openMovesF Piece.getOpenMoves
    cases hk : p.kind <;> dsimp only
    case king =>
      have hcheck : ∀ b2,
          inCheckVia (fun q bb => openMovesF (fuel + 1) q bb false) p.color b2 =
            some (inCheck p.color b2) := fun b2 => inCheckF_eq fuel p.color b2
      rw [kingCastleMovesVia_eq _ p b hcheck]
      cases kingCastleMoves p b with
      | error e => rfl
      | ok cm => rfl

theorem availLoopVia_eq (check : Board → Option (Except ChessError Bool)) (piece : Piece)
    (b : Board) (hcheck : ∀ b2, check b2 = some (inCheck piece.color b2)) :
    ∀ l, availLoopVia check piece b l = some (availLoop piece b l) := by
  intro l
  induction l with
  | nil => rfl
  | cons m rest ih =>
    unfold availLoopVia availLoop
    cases piece.move m b with
    | error e => rfl
    | ok b2 =>
      dsimp only
      rw [hcheck b2]
      cases inCheck piece.color b2 with
      | error e => rfl
      | ok chk =>
        dsimp only
        rw [ih]
        cases availLoop piece b rest with
        | error e => rfl
        | ok tail => rfl

theorem getAvailableMovesF_eq (fuel : Nat) (piece : Piece) (b : Board) :
    getAvailableMovesF (fuel + 2) piece b = some (getAvailableMoves piece b) := by
  unfold getAvailableMovesF getAvailableMoves
  rw [openMovesF_eq fuel piece b true]
  cases piece.getOpenMoves b true with
  | error e => rfl
  | ok ms =>
    dsimp only
    exact availLoopVia_eq _ piece b (fun b2 => inCheckF_eq (fuel + 1) piece.color b2) ms

theorem allNoMovesVia_eq (avail : Piece → Option (Except ChessError (List Coordinate)))
    (color : Color) (b : Board)
    (havail : ∀ p, avail p = some (getAvailableMoves p b)) :
    ∀ l, allNoMovesVia avail color l = some (allNoMoves color b l) := by
  intro l
  induction l with
  | nil => rfl
  | cons p rest ih =>
    unfold allNoMovesVia allNoMoves
    by_cases hc : p.color = color
    · rw [if_pos hc, if_pos hc, havail p]
      cases getAvailableMoves p b with
      | error e => rfl
      | ok ms =>
        dsimp only
        by_cases hlen : ms.length ≠ 0
        · rw [if_pos hlen, if_pos hlen]
        · rw [if_neg hlen, if_neg hlen]
          exact ih
    · rw [if_neg hc, if_neg hc]
      exact ih

theorem inCheckmateF_eq (fuel : Nat) (color : Color) (b : Board) :
    inCheckmateF (fuel + 2) color b = some (inCheckmate color b) := by
  unfold inCheckmateF inCheckmate
  rw [inCheckF_eq (fuel + 1) color b]
  cases inCheck color b with
  | error e => rfl
  | ok chk =>
    dsimp only
    cases chk with
    | false => rfl
    | true =>
      exact allNoMovesVia_eq _ color b
        (fun p => getAvailableMovesF_eq fuel p b) b.pieces

theorem inStalemateF_eq (fuel : Nat) (color : Color) (b : Board) :
    inStalemateF (fuel + 2) color b = some (inStalemate color b) := by
  unfold inStalemateF inStalemate
  rw [inCheckF_eq (fuel + 1) color b]
  cases inCheck color b with
  | error e => rfl
  | ok chk =>
    dsimp only
    cases chk with
    | false =>
      exact allNoMovesVia_eq _ color b
        (fun p => getAvailableMovesF_eq fuel p b) b.pieces
    | true => rfl

theorem distinctPos_unique {b : Board} (hd : b.distinctPos) {p p' : Piece}
    (hp : p ∈ b.pieces) (hp' : p' ∈ b.pieces) (hpos : p.position = p'.position) : p = p' := by
  by_contra hne
  exact (List.Pairwise.forall (fun x y h => (h ∘ Eq.symm)) hd hp hp' hne) hpos

/-- C7: `Board.getPieceAt` throws the out-of-bounds error exactly when the
coordinate is out of bounds, throws the empty-square error exactly when the
coordinate is in bounds and unoccupied, and otherwise returns a piece of the
board occupying that coordinate (THE occupier when the board has at most one
piece per square). -/
theorem getPieceAt_spec (b : Board) (c : Coordinate) :
    (b.getPieceAt c = Except.error ChessError.illegalCoordinate ↔ c.inBounds = false) ∧
    (b.getPieceAt c = Except.error ChessError.noPieceInSpace ↔
      (c.inBounds = true ∧ ∀ q ∈ b.pieces, q.position ≠ c)) ∧
    (∀ p, b.getPieceAt c = Except.ok p → p ∈ b.pieces ∧ p.position = c) ∧
    (c.inBounds = true → ∀ p', p' ∈ b.pieces → p'.position = c →
      ∃ p, b.getPieceAt c = Except.ok p ∧ (b.distinctPos → p = p')) := by
  unfold Board.getPieceAt
  by_cases hb : c.inBounds = true
  · rw [if_pos hb]
    cases hf : b.pieceAtP c with
    | none =>
      unfold Board.pieceAtP at hf
      have hall : ∀ q ∈ b.pieces, q.position ≠ c := by
        intro q hq hqc
        have := List.find?_eq_none.mp hf q hq
        exact this ((Coordinate.equals_iff q.position c).mpr hqc)
      refine ⟨by simp [hb], ⟨fun _ => ⟨hb, hall⟩, fun _ => rfl⟩, by simp, ?_⟩
      intro _ p' hp' hpc
      exact absurd hpc (hall p' hp')
    | some p =>
      unfold Board.pieceAtP at hf
      have hpmem : p ∈ b.pieces := List.mem_of_find?_eq_some hf
      have hfs : p.position.equals c = true :=
        @List.find?_some Piece (fun q => q.position.equals c) p b.pieces hf
      have hppos : p.position = c := (Coordinate.equals_iff p.position c).mp hfs
      refine ⟨by simp [hb], ?_, ?_, ?_⟩
      · simp only [hb, true_and]
        constructor
        · intro h
          exact absurd h (by simp)
        · intro hall
          exact absurd hppos (hall p hpmem)
      · intro p0 h0
        injection h0 with h0
        subst h0
        exact ⟨hpmem, hppos⟩
      · intro _ p' hp' hpc
        refine ⟨p, rfl, ?_⟩
        intro hd
        exact distinctPos_unique hd hpmem hp' (hppos.trans hpc.symm)
  · rw [if_neg hb]
    have hbf : c.inBounds = false := by
      rw [Bool.eq_false_iff]
      exact hb
    refine ⟨by simp [hbf], by simp [hb], by simp, ?_⟩
    intro hbt
    exact absurd hbt hb

/-- C1: on the standard queenside-castling position (unmoved own-color Rook on
the corner, the three squares between King and Rook empty, the King never
passing through check) the castling destination (2,7) is NOT among the open
moves with `castle = true`: the source's path scan starts at the king's own
column 4, whose square is never empty, so the claim's biconditional fails. -/
theorem claim1_castle_omitted :
    Piece.getOpenMoves kingE1 castleBoard true =
      Except.ok [⟨5, 6⟩, ⟨3, 6⟩, ⟨5, 7⟩, ⟨3, 7⟩, ⟨4, 6⟩] ∧
    (⟨2, 7⟩ : Coordinate) ∉ ([⟨5, 6⟩, ⟨3, 6⟩, ⟨5, 7⟩, ⟨3, 7⟩, ⟨4, 6⟩] : List Coordinate) :=
  ⟨by decide, by decide⟩

/-- C2: a queenside-castling `King.move` silently removes the kingside rook
at (7,7) from the board (the source's rook branch keeps only the rook on the
queenside corner), contradicting the claim that every other piece of the
input board is unchanged. -/
theorem claim2_castle_drops_rook :
    Piece.move kingE1 ⟨2, 7⟩ twoRookBoard =
      Except.ok (Board.mk [mkRook Color.white 3 7 true, mkKing Color.white 2 7 false]) ∧
    ((Board.mk [mkRook Color.white 3 7 true, mkKing Color.white 2 7 false]).pieces.all
      (fun q => !(q.position.equals ⟨7, 7⟩))) = true :=
  ⟨by decide, by decide⟩

/-- C3: every destination in a successfully computed `getAvailableMoves` list
passes the tentative-move not-in-check test: applying the move succeeds and
`inCheck` of the mover's color on the resulting board returns false. -/
theorem claim3_available_not_in_check (p : Piece) (b : Board) (ms : List Coordinate)
    (m : Coordinate)
    (_hwk : ∃ q ∈ b.pieces, q.kind = PieceKind.king ∧ q.color = Color.white)
    (_hbk : ∃ q ∈ b.pieces, q.kind = PieceKind.king ∧ q.color = Color.black)
    (h : getAvailableMoves p b = Except.ok ms) (hm : m ∈ ms) :
    ∃ b2, p.move m b = Except.ok b2 ∧ inCheck p.color b2 = Except.ok false := by
  unfold getAvailableMoves at h
  cases ho : p.getOpenMoves b true with
  | error e =>
    rw [ho] at h
    simp at h
  | ok omoves =>
    rw [ho] at h
    dsimp only at h
    exact availLoop_mem p b omoves ms h m hm

/-- C3 witness: on the two-kings board the white king's available moves are
computed concretely and the theorem applies to the first of them. -/
theorem claim3_witness :
    ∃ b2, Piece.move kingA1 ⟨1, 1⟩ twoKingsBoard = Except.ok b2 ∧
      inCheck Color.white b2 = Except.ok false :=
  claim3_available_not_in_check kingA1 twoKingsBoard [⟨1, 1⟩, ⟨1, 0⟩, ⟨0, 1⟩] ⟨1, 1⟩
    (by decide) (by decide) (by decide) (by decide)

/-- C4: on the spec's stalemate scenario built with the constructors' default
flags, `inStalemate("Black")` returns FALSE, not true: the unmoved black
king's pseudo-move to (6,0) is treated by `King.move` as kingside castling,
which deletes both white rooks from the tentative board, so the king is not
in check there and the move counts as available.  With the black king's
`firstMove` flag false the code does return true, as the claim states. -/
theorem claim4_stalemate_scenario :
    inStalemate Color.black staleBoard = Except.ok false ∧
    inCheckmate Color.black staleBoard = Except.ok false ∧
    getAvailableMoves (mkKing Color.black 5 0 true) staleBoard = Except.ok [⟨6, 0⟩] ∧
    inStalemate Color.black staleBoardMoved = Except.ok true ∧
    inCheckmate Color.black staleBoardMoved = Except.ok false :=
  ⟨by decide, by decide, by decide, by decide, by decide⟩

/-- C5 counterexample: a board that has a white King but on which
`inCheck("White")` neither throws MissingKing nor returns a boolean — it
throws the out-of-bounds error instead, because the opposing first-move
pawn's double-step probe square lies off the board. -/
theorem claim5_counterexample :
    (pawnProbeBoard.pieces.any fun q =>
      decide (q.kind = PieceKind.king) && decide (q.color = Color.white)) = true ∧
    inCheck Color.white pawnProbeBoard = Except.error ChessError.outOfBounds :=
  ⟨by decide, by decide⟩

/-- C5 (amended): `inCheck` throws MissingKing exactly when the board holds no
King of the color; and when the king scan finds a king (at the last-listed
King's square) and every opposing piece's `getOpenMoves(castle = false)`
computation succeeds, it returns true exactly when some opposing piece has
the king's square among those open moves. -/
theorem claim5_inCheck_spec (color : Color) (b : Board) :
    (inCheck color b = Except.error ChessError.mustHaveKing ↔
      ∀ q ∈ b.pieces, ¬(q.kind = PieceKind.king ∧ q.color = color)) ∧
    (∀ kp, findKingPos color b.pieces = some kp →
      (∀ q ∈ b.pieces, q.color ≠ color → (q.getOpenMoves b false).isOk = true) →
      (inCheck color b = Except.ok true ↔
        ∃ q ∈ b.pieces, q.color ≠ color ∧
          ∃ ms, q.getOpenMoves b false = Except.ok ms ∧ kp ∈ ms)) := by
  refine ⟨inCheck_missing_iff color b, ?_⟩
  intro kp hkp hok
  have hok2 : ∀ q ∈ b.pieces, q.color ≠ color → ∃ ms, getOpenMovesNC q b = Except.ok ms := by
    intro q hq hqc
    have hiso := hok q hq hqc
    rw [getOpenMoves_false] at hiso
    cases hg : getOpenMovesNC q b with
    | error e =>
      rw [hg] at hiso
      simp [Except.isOk, Except.toBool] at hiso
    | ok ms => exact ⟨ms, rfl⟩
  unfold inCheck
  rw [hkp]
  dsimp only
  rw [checkLoop_ok_true_iff color b kp b.pieces hok2]
  constructor
  · rintro ⟨q, hq, hqc, ms, hms, hmem⟩
    refine ⟨q, hq, hqc, ms, ?_, hmem⟩
    rw [getOpenMoves_false]
    exact hms
  · rintro ⟨q, hq, hqc, ms, hms, hmem⟩
    refine ⟨q, hq, hqc, ms, ?_, hmem⟩
    rw [getOpenMoves_false] at hms
    exact hms

/-- C5 witness: on the rook-check board the amended biconditional is
instantiated with the white king's square, and both hypotheses are
discharged by computation. -/
theorem claim5_witness :
    inCheck Color.white rookCheckBoard = Except.ok true ↔
      ∃ q ∈ rookCheckBoard.pieces, q.color ≠ Color.white ∧
        ∃ ms, q.getOpenMoves rookCheckBoard false = Except.ok ms ∧
          (⟨4, 7⟩ : Coordinate) ∈ ms :=
  (claim5_inCheck_spec Color.white rookCheckBoard).2 ⟨4, 7⟩ (by decide) (by decide)

/-- C6 counterexample: a board satisfying the invariant on which a castling
`King.move` to the in-bounds destination (2,7) produces a board with two
pieces on (3,7): the relocated rook and the bishop already standing there. -/
theorem claim6_counterexample :
    (⟨2, 7⟩ : Coordinate).inBounds = true ∧
    bishopCastleBoard.distinctPos ∧
    Piece.move kingE1 ⟨2, 7⟩ bishopCastleBoard =
      Except.ok (Board.mk [mkRook Color.white 3 7 true, mkBishop Color.white 3 7,
        mkKing Color.white 2 7 false]) ∧
    ¬(Board.mk [mkRook Color.white 3 7 true, mkBishop Color.white 3 7,
        mkKing Color.white 2 7 false]).distinctPos :=
  ⟨by decide, by decide, by decide, by decide⟩

/-- C6 witness: a plain pawn advance on a distinct-position board, showing the
amended theorem applies at a concrete input. -/
theorem claim6_witness :
    ∃ b2, Piece.move (mkPawn Color.white 3 6 true false) ⟨3, 5⟩ pawnHomeBoard = Except.ok b2 ∧
      b2.distinctPos :=
  move_preserves_distinct (mkPawn Color.white 3 6 true false) ⟨3, 5⟩ pawnHomeBoard
    (by decide) (by decide) (by decide)

/-- C7 witness: the characterization instantiated at an out-of-bounds lookup
and at an occupied in-bounds square of a concrete one-piece board. -/
theorem claim7_witness :
    (Board.getPieceAt rookOnlyBoard ⟨9, 2⟩ = Except.error ChessError.illegalCoordinate ↔
      (⟨9, 2⟩ : Coordinate).inBounds = false) ∧
    (∃ p, Board.getPieceAt rookOnlyBoard ⟨2, 2⟩ = Except.ok p ∧
      (rookOnlyBoard.distinctPos → p = mkRook Color.white 2 2 true)) :=
  ⟨(getPieceAt_spec rookOnlyBoard ⟨9, 2⟩).1,
   (getPieceAt_spec rookOnlyBoard ⟨2, 2⟩).2.2.2 (by decide) (mkRook Color.white 2 2 true)
     (by decide) (by decide)⟩

/-- C8: every core operation is computed by its fueled mirror with a fixed
small fuel, for every input: the mutual recursion between the castling branch
of `King.getOpenMoves` and `inCheck` has depth at most 2 because `inCheck`
invokes `getOpenMoves` with `castle = false`, which makes no further call. -/
theorem claim8_core_terminates (p : Piece) (b : Board) (castle : Bool) (color : Color)
    (m : Coordinate) :
    openMovesF 2 p b castle = some (p.getOpenMoves b castle) ∧
    inCheckF 1 color b = some (inCheck color b) ∧
    moveF 1 p m b = some (p.move m b) ∧
    getAvailableMovesF 2 p b = some (getAvailableMoves p b) ∧
    inCheckmateF 2 color b = some (inCheckmate color b) ∧
    inStalemateF 2 color b = some (inStalemate color b) :=
  ⟨openMovesF_eq 0 p b castle, inCheckF_eq 0 color b, rfl,
   getAvailableMovesF_eq 0 p b, inCheckmateF_eq 0 color b, inStalemateF_eq 0 color b⟩

/-- C9: for every color and board holding a King of that color, `inCheckmate`
and `inStalemate` never both return true: one requires `inCheck` to return
true and the other requires it to return false. -/
theorem claim9_exclusive (color : Color) (b : Board)
    (_hk : ∃ q ∈ b.pieces, q.kind = PieceKind.king ∧ q.color = color) :
    ¬(inCheckmate color b = Except.ok true ∧ inStalemate color b = Except.ok true) := by
  rintro ⟨h1, h2⟩
  have hc1 := inCheckmate_true_inCheck h1
  have hc2 := inStalemate_true_inCheck h2
  rw [hc1] at hc2
  exact absurd hc2 (by simp)

/-- C9 witness: the exclusivity instantiated on the concrete stalemate board. -/
theorem claim9_witness :
    ¬(inCheckmate Color.black staleBoardMoved = Except.ok true ∧
      inStalemate Color.black staleBoardMoved = Except.ok true) :=
  claim9_exclusive Color.black staleBoardMoved (by decide)

/-- C10: a white Pawn constructed at row 1 (so its `firstMove` flag is true)
with the square ahead of it empty makes `getOpenMoves` throw instead of
returning a list: the first-move double-step probe calls `Board.isEmpty` on
the out-of-bounds square (3,-1). -/
theorem claim10_pawn_throws :
    pawnEdgeBoard.isEmptyP ⟨3, 0⟩ = true ∧
    Piece.getOpenMoves (mkPawn Color.white 3 1 true false) pawnEdgeBoard false =
      Except.error ChessError.outOfBounds :=
  ⟨by decide, by decide⟩
